import Mathlib

/-!
Verification of the `json_dto` mapper (src/json_dto.py).

The development shallowly embeds the reflective object-to-JSON mapping layer:
Python values are modelled by the inductive `Val`, field type annotations by
`Ty`, dataclass default declarations by `Dflt`, and the operations
`JsonDto.serialize_value` / `JsonDto.to_json` / `JsonDto.from_json` /
`JsonDto.get_schema_properties` / `JsonDto.get_schema_required` are translated
as executable Lean functions over these types.

Modelling conventions:
- Python `datetime` is modelled at second resolution with an optional UTC
  offset in whole minutes (`PyDatetime`); the fixed format
  `%Y-%m-%d %H:%M:%S%z` has no sub-second directive, and the library only
  produces offsets in whole minutes for standard `timezone` objects.
- Python floats are represented by exact rationals: the serializer passes
  floats through unchanged and `float(x)` on a float is the identity, so any
  faithful carrier works for the properties below.
- A dataclass instance is modelled by its ordered field map
  `List (String × Val)`; nested serialization dispatches on that field map,
  which for well-typed values coincides with the declared type's descriptor.
-/

/-- Python `datetime.datetime` at second resolution (the fixed format has
no sub-second directive).  `tz` is the UTC offset in microseconds
(`Option.none` = timezone-naive); since Python 3.7 `timezone` accepts
offsets with seconds and microseconds, and `strptime`'s `%z` can produce
them. -/
structure PyDatetime where
  year : Nat
  month : Nat
  day : Nat
  hour : Nat
  minute : Nat
  second : Nat
  tz : Option Int
deriving DecidableEq, Repr

/-- The datetime fields that Python's `datetime` constructor accepts
(`strptime` builds a `datetime`, so parsing enforces exactly these ranges). -/
def PyDatetime.ValidFields (d : PyDatetime) : Prop :=
  1 ≤ d.year ∧ d.year ≤ 9999 ∧ 1 ≤ d.month ∧ d.month ≤ 12 ∧
  1 ≤ d.day ∧ d.hour ≤ 23 ∧ d.minute ≤ 59 ∧ d.second ≤ 59

instance (d : PyDatetime) : Decidable d.ValidFields := by
  unfold PyDatetime.ValidFields; infer_instance

/-- Decimal digit to character, as produced by `strftime`'s zero padding. -/
def dChar (n : Nat) : Char := Char.ofNat (48 + n)

/-- Character to decimal digit value, as consumed by `strptime`. -/
def dVal (c : Char) : Nat := c.toNat - 48

/-- Is the character an ASCII decimal digit? -/
def isDig (c : Char) : Bool := 48 ≤ c.toNat && c.toNat ≤ 57

/-- Two-digit zero-padded decimal rendering (`%m`, `%d`, `%H`, `%M`, `%S`,
and the hour/minute/second components of `%z`). -/
def pad2 (n : Nat) : List Char := [dChar (n / 10 % 10), dChar (n % 10)]

/-- Four-digit zero-padded decimal rendering. -/
def pad4 (n : Nat) : List Char :=
  [dChar (n / 1000 % 10), dChar (n / 100 % 10), dChar (n / 10 % 10), dChar (n % 10)]

/-- Six-digit zero-padded decimal rendering (`%06d`, the microsecond part of
a `%z` offset). -/
def pad6 (n : Nat) : List Char :=
  [dChar (n / 100000 % 10), dChar (n / 10000 % 10), dChar (n / 1000 % 10),
   dChar (n / 100 % 10), dChar (n / 10 % 10), dChar (n % 10)]

/-- `strftime('%Y')` as the program's platform (glibc) renders it: the year
in decimal with **no** zero padding — year 5 formats as `"5"`, year 999 as
`"999"`.  Years are at most 9999 on a real Python `datetime`; above that
(not constructible) the model keeps four digits. -/
def fmtYear (y : Nat) : List Char :=
  if y < 10 then [dChar (y % 10)]
  else if y < 100 then [dChar (y / 10 % 10), dChar (y % 10)]
  else if y < 1000 then [dChar (y / 100 % 10), dChar (y / 10 % 10), dChar (y % 10)]
  else pad4 y

/-- Gregorian leap-year test, as used by Python's `datetime`. -/
def isLeapYear (y : Nat) : Bool := (y % 4 == 0 && y % 100 != 0) || (y % 400 == 0)

/-- Days in a month, as validated by Python's `datetime` constructor. -/
def daysInMonth (y m : Nat) : Nat :=
  if m == 2 then (if isLeapYear y then 29 else 28)
  else if m == 4 || m == 6 || m == 9 || m == 11 then 30
  else 31

/-- Python's regex `\s` over `str` (the characters `c` with `c.isspace()`):
ASCII 9-13 and 28-32, NEL, NBSP, and the Unicode space separators. -/
def pyWhitespace (c : Char) : Bool :=
  let n := c.toNat
  (9 ≤ n && n ≤ 13) || (28 ≤ n && n ≤ 32) || n == 133 || n == 160 || n == 5760 ||
  (8192 ≤ n && n ≤ 8202) || n == 8232 || n == 8233 || n == 8239 || n == 8287 ||
  n == 12288

/-- Drop a (possibly empty) run of whitespace: the greedy tail of the
`\s+` that the format's literal space turns into. -/
def dropWs : List Char → List Char
  | [] => []
  | c :: r => if pyWhitespace c then dropWs r else c :: r

/-- `strftime('%z')` as CPython's `_wrap_strftime` emits it: empty for a
naive datetime; else sign, `HHMM`, plus `SS` only when the offset has
seconds, plus `.ffffff` only when it has microseconds.  (`hh ≤ 23` for any
offset a `timezone` accepts, so two digits always suffice.) -/
def formatTz : Option Int → List Char
  | Option.none => []
  | Option.some off =>
      let sg := if off < 0 then '-' else '+'
      let a := off.natAbs
      let hh := a / 3600000000
      let mm := a / 60000000 % 60
      let ss := a / 1000000 % 60
      let us := a % 1000000
      if us ≠ 0 then sg :: (pad2 hh ++ pad2 mm ++ pad2 ss ++ '.' :: pad6 us)
      else if ss ≠ 0 then sg :: (pad2 hh ++ pad2 mm ++ pad2 ss)
      else sg :: (pad2 hh ++ pad2 mm)

/-- `value_.strftime(DEFAULT_DATE_FORMAT)` with
`DEFAULT_DATE_FORMAT = '%Y-%m-%d %H:%M:%S%z'` (src/json_dto.py line 6). -/
def formatDT (d : PyDatetime) : List Char :=
  fmtYear d.year ++ '-' :: (pad2 d.month ++ '-' :: (pad2 d.day ++ ' ' ::
    (pad2 d.hour ++ ':' :: (pad2 d.minute ++ ':' :: (pad2 d.second ++ formatTz d.tz)))))

/-- `strptime`'s `%Y` directive: exactly four digits (`\d\d\d\d` in
CPython's `_strptime.TimeRE`). -/
def parse4Dig : List Char → Option (Nat × List Char)
  | a :: b :: c :: d :: r =>
      if isDig a && isDig b && isDig c && isDig d then
        some (dVal a * 1000 + dVal b * 100 + dVal c * 10 + dVal d, r)
      else none
  | _ => none

/-- A literal character of the format (`-`, `:`). -/
def expectChar (c : Char) : List Char → Option (List Char)
  | x :: r => if x = c then some r else none
  | [] => none

/-- A 1-2 digit directive (`%m`, `%d`, `%H`, `%M`, `%S`).  Each is followed
in the format by a non-digit token, so regex backtracking makes it consume
exactly the leading digit run, which must have length 1 or 2; the numeric
range restrictions of the individual directives coincide with the ones the
`datetime` constructor enforces anyway, so they are checked once at the
end of the parse (both failures raise the same caught `ValueError`). -/
def parseRun2 : List Char → Option (Nat × List Char)
  | c1 :: c2 :: c3 :: r =>
      if isDig c1 then
        if isDig c2 then
          if isDig c3 then none
          else some (dVal c1 * 10 + dVal c2, c3 :: r)
        else some (dVal c1, c2 :: c3 :: r)
      else none
  | [c1, c2] =>
      if isDig c1 then
        if isDig c2 then some (dVal c1 * 10 + dVal c2, [])
        else some (dVal c1, [c2])
      else none
  | [c1] => if isDig c1 then some (dVal c1, []) else none
  | [] => none

/-- `%d` additionally has the blank-padded alternative `" [1-9]"` (a
literal space and one digit) in `TimeRE`. -/
def parseDay (cs : List Char) : Option (Nat × List Char) :=
  match cs with
  | c1 :: c2 :: r =>
      if c1 = ' ' then (if isDig c2 then some (dVal c2, r) else none)
      else parseRun2 cs
  | _ => parseRun2 cs

/-- The `\s+` that the format's literal space becomes: at least one
whitespace character, consumed greedily. -/
def parseWs : List Char → Option (List Char)
  | c :: r => if pyWhitespace c then some (dropWs r) else none
  | [] => none

/-- The `[0-5]\d` minute/second component of `%z`: exactly two digits, the
first at most 5. -/
def parseMM : List Char → Option (Nat × List Char)
  | c1 :: c2 :: r =>
      if isDig c1 && dVal c1 ≤ 5 && isDig c2 then some (dVal c1 * 10 + dVal c2, r)
      else none
  | _ => none

/-- The `\.\d{1,6}` fractional part of a `%z` offset, right-padded to
microseconds, consuming to the end of the string. -/
def parseFrac (r : List Char) : Option Nat :=
  if r.length = 0 || 6 < r.length || !(r.all isDig) then none
  else some ((r.foldl (fun a c => a * 10 + dVal c) 0) * 10 ^ (6 - r.length))

/-- The optional fraction after the seconds of a `%z` offset. -/
def parseFracTail : List Char → Option Nat
  | [] => some 0
  | c :: r => if c = '.' then parseFrac r else none

/-- `timezone(timedelta(...))` construction: the offset must be strictly
between -24 and +24 hours, else `ValueError` (caught like a pattern
mismatch). -/
def mkOff (sg : Char) (a : Nat) : Option Int :=
  if a < 86400000000 then some (if sg = '-' then -(a : Int) else (a : Int)) else none

/-- `strptime`'s `%z` directive and its conversion code.  The regex is
`[+-]\d\d:?[0-5]\d(:?[0-5]\d(\.\d{1,6})?)?|Z` (uppercase `Z` only); the
conversion slices fixed positions after removing the colons it expects, so
a mixed colon style (`+01:0030`, `+0100:30`) raises a `ValueError` exactly
like a mismatch does — both end as a caught error.  The directive is
mandatory: an input without an offset fails the whole parse. -/
def parseTz (cs : List Char) : Option Int :=
  match cs with
  | [] => none
  | c :: rest =>
      if c = 'Z' then (match rest with | [] => some 0 | _ => none)
      else if c = '+' || c = '-' then
        match rest with
        | h1 :: h2 :: r2 =>
            if isDig h1 && isDig h2 then
              let hh := dVal h1 * 10 + dVal h2
              match r2 with
              | [] => none
              | c2 :: r3 =>
                  if c2 = ':' then
                    (parseMM r3).bind fun p =>
                      match p.2 with
                      | [] => mkOff c (hh * 3600000000 + p.1 * 60000000)
                      | c3 :: r5 =>
                          if c3 = ':' then
                            (parseMM r5).bind fun q =>
                            (parseFracTail q.2).bind fun us =>
                              mkOff c (hh * 3600000000 + p.1 * 60000000 +
                                q.1 * 1000000 + us)
                          else none
                  else
                    (parseMM (c2 :: r3)).bind fun p =>
                      match p.2 with
                      | [] => mkOff c (hh * 3600000000 + p.1 * 60000000)
                      | _ =>
                          (parseMM p.2).bind fun q =>
                          (parseFracTail q.2).bind fun us =>
                            mkOff c (hh * 3600000000 + p.1 * 60000000 +
                              q.1 * 1000000 + us)
            else none
        | _ => none
      else none

/-- `datetime.strptime(value, '%Y-%m-%d %H:%M:%S%z')`, failure meaning a
`ValueError` (from the regex mismatch, leftover input, the offset
conversion, or the `datetime` constructor's range validation — all caught
alike by the caller).  The directives are digit runs separated by the
non-digit literals `-`, whitespace and `:`, so the regex match is
deterministic and modelled compositionally. -/
def parseDT (cs : List Char) : Option PyDatetime :=
  (parse4Dig cs).bind fun py =>
  (expectChar '-' py.2).bind fun r1 =>
  (parseRun2 r1).bind fun pmo =>
  (expectChar '-' pmo.2).bind fun r3 =>
  (parseDay r3).bind fun pda =>
  (parseWs pda.2).bind fun r5 =>
  (parseRun2 r5).bind fun ph =>
  (expectChar ':' ph.2).bind fun r7 =>
  (parseRun2 r7).bind fun pmi =>
  (expectChar ':' pmi.2).bind fun r9 =>
  (parseRun2 r9).bind fun pse =>
  if 1 ≤ py.1 && 1 ≤ pmo.1 && pmo.1 ≤ 12 && 1 ≤ pda.1 &&
     pda.1 ≤ daysInMonth py.1 pmo.1 && ph.1 ≤ 23 && pmi.1 ≤ 59 && pse.1 ≤ 59 then
    (parseTz pse.2).bind fun off =>
      some ⟨py.1, pmo.1, pda.1, ph.1, pmi.1, pse.1, some off⟩
  else none

/-- A Python value, as the mapper sees it: `None`, JSON primitives, a
`datetime`, an enum member (recorded by enum name and member name), a list,
a dict (insertion-ordered association list), or a mapped `JsonDto` instance
(recorded by its ordered field map). -/
inductive Val where
  | none : Val
  | str : String → Val
  | int : Int → Val
  | bool : Bool → Val
  | float : Rat → Val
  | dt : PyDatetime → Val
  | enumMember : String → String → Val
  | list : List Val → Val
  | dict : List (Val × Val) → Val
  | obj : List (String × Val) → Val

/-- A dataclass field's declared default: absent (`dataclasses.MISSING`),
a plain `default`, or a `default_factory` producing the given value.  The
`default` attribute of a `default_factory` field is still `MISSING`. -/
inductive Dflt where
  | missing : Dflt
  | value : Val → Dflt
  | factory : Val → Dflt

/-- A field's declared type annotation, classified the way the source
dispatches on it: the six plain types of the `[str, int, bool, float, dict,
list]` membership test, `datetime`, a concrete `enum.Enum` subclass (with its
member names), `List[...]`, `Dict[...,...]`, a `JsonDto` subclass (with its
resolved field descriptor: name, type, default), or any other class, which no
branch of the source recognizes. -/
inductive Ty where
  | str : Ty
  | int : Ty
  | bool : Ty
  | float : Ty
  | rawDict : Ty
  | rawList : Ty
  | datetime : Ty
  | enum : String → List String → Ty
  | listOf : Ty → Ty
  | mapOf : Ty → Ty → Ty
  | record : List (String × Ty × Dflt) → Ty
  | unsupported : String → Ty

/-- The ordered field descriptor of a mapped record type: for each field its
name, resolved type annotation and dataclass default. -/
abbrev RecordDesc := List (String × Ty × Dflt)

/-- The ordered field map of a mapped instance. -/
abbrev Fields := List (String × Val)

/-- Python truthiness, as used by `... if value else None`. -/
def truthy : Val → Bool
  | .none => false
  | .bool b => b
  | .int n => n != 0
  | .float q => q != 0
  | .str s => s != ""
  | .list xs => !xs.isEmpty
  | .dict es => !es.isEmpty
  | .dt _ => true
  | .enumMember _ _ => true
  | .obj _ => true

/-- Python `str(value)`.  Exact on strings, integers, booleans and `None`;
the `repr`-style rendering of the remaining shapes is not needed by any
property below and is abstracted to a placeholder. -/
def pyStr : Val → String
  | .str s => s
  | .int n => toString n
  | .bool b => if b then "True" else "False"
  | .none => "None"
  | _ => "<repr>"

/-- Truncation toward zero, Python's `int(float)` conversion. -/
def ratTrunc (q : Rat) : Int := if q < 0 then -((-q).floor) else q.floor

/-- Python `int(value)`: identity on ints, 0/1 on bools, truncation on
floats, decimal parse on strings (`ValueError` on failure), `TypeError`
otherwise. -/
def pyInt : Val → Except String Int
  | .int n => .ok n
  | .bool b => .ok (if b then 1 else 0)
  | .float q => .ok (ratTrunc q)
  | .str s =>
      match s.toInt? with
      | some n => .ok n
      | Option.none => .error "ValueError"
  | _ => .error "TypeError"

/-- Python `float(value)`: identity on floats, exact on ints and bools;
string parsing is modelled for integer literals only (no property below
exercises decimal literals), `ValueError` / `TypeError` otherwise. -/
def pyFloat : Val → Except String Rat
  | .float q => .ok q
  | .int n => .ok (n : Rat)
  | .bool b => .ok (if b then 1 else 0)
  | .str s =>
      match s.toInt? with
      | some n => .ok (n : Rat)
      | Option.none => .error "ValueError"
  | _ => .error "TypeError"

/-- Python `dict(value)`: a shallow copy of a dict.  (`dict` of an iterable
of pairs is not modelled; no property below exercises it.) -/
def pyDict : Val → Except String (List (Val × Val))
  | .dict es => .ok es
  | _ => .error "TypeError"

/-- Python `list(value)`: copy of a list, the key list of a dict, the
character list of a string; `TypeError` on non-iterables. -/
def pyList : Val → Except String (List Val)
  | .list xs => .ok xs
  | .dict es => .ok (es.map (·.1))
  | .str s => .ok (s.data.map fun c => .str (Char.toString c))
  | _ => .error "TypeError"

/-- Attribute / keyword lookup in an ordered `(String × Val)` map:
`getattr(self, name)` on an instance's field map, or `kwargs[name]`. -/
def lookupS : List (String × Val) → String → Option Val
  | [], _ => Option.none
  | (k, v) :: r, n => if k = n then some v else lookupS r n

/-- Dict key membership / subscript for a string key: `name in payload`
followed by `payload[name]`; Python string keys compare by `==`. -/
def lookupD : List (Val × Val) → String → Option Val
  | [], _ => Option.none
  | (k, v) :: r, n =>
      match k with
      | .str s => if s = n then some v else lookupD r n
      | _ => lookupD r n

mutual

/-- `JsonDto.serialize_value(value, type_)` (src/json_dto.py lines 37-70).
`None` serializes to `None` for every type; the six plain types pass
through; `datetime` is formatted; generic lists and dicts recurse; an enum
member serializes to its `.name`; a nested `JsonDto` to its `to_json()`
dict; any other annotation raises `NotImplementedError`.  Errors of shape
`AttributeError` stand for the attribute accesses (`strftime`, `.name`,
`.to_json`, `.items`) failing on a value of the wrong runtime shape, and
`TypeError` for iterating a non-list. -/
def serialize_value : Ty → Val → Except String Val
  | _, .none => .ok .none
  | .str, v => .ok v
  | .int, v => .ok v
  | .bool, v => .ok v
  | .float, v => .ok v
  | .rawDict, v => .ok v
  | .rawList, v => .ok v
  | .datetime, v =>
      match v with
      | .dt d => .ok (.str (String.mk (formatDT d)))
      | _ => .error "AttributeError"
  | .listOf t, v =>
      match v with
      | .list xs => do
          let ys ← serialize_elems t xs
          .ok (.list ys)
      | _ => .error "TypeError"
  | .mapOf kt vt, v =>
      match v with
      | .dict es => do
          let fs ← serialize_entries kt vt es
          .ok (.dict fs)
      | _ => .error "AttributeError"
  | .enum _ _, v =>
      match v with
      | .enumMember _ m => .ok (.str m)
      | _ => .error "AttributeError"
  | .record desc, v =>
      match v with
      | .obj f => do
          let out ← to_json desc f
          .ok (.dict (out.map fun p => (Val.str p.1, p.2)))
      | _ => .error "AttributeError"
  | .unsupported _, _ => .error "NotImplementedError: serializer not implemented"
termination_by t _ => (sizeOf t, 0)
decreasing_by
  · apply Prod.Lex.left; simp_arith
  · apply Prod.Lex.left; simp_arith
  · apply Prod.Lex.left; simp_arith

/-- The list comprehension `[JsonDto.serialize_value(v, generic_type) for v
in value]` (line 57). -/
def serialize_elems (t : Ty) : List Val → Except String (List Val)
  | [] => .ok []
  | x :: xs => do
      let y ← serialize_value t x
      let ys ← serialize_elems t xs
      .ok (y :: ys)
termination_by xs => (sizeOf t, 1 + sizeOf xs)
decreasing_by
  · apply Prod.Lex.right; simp_arith
  · apply Prod.Lex.right; simp_arith

/-- The dict comprehension over `value.items()` serializing keys and values
(lines 61-64).  Duplicate serialized keys cannot arise from a Python dict
input and are kept as-is in the association list. -/
def serialize_entries (kt vt : Ty) : List (Val × Val) → Except String (List (Val × Val))
  | [] => .ok []
  | (k, v) :: es => do
      let k2 ← serialize_value kt k
      let v2 ← serialize_value vt v
      let es2 ← serialize_entries kt vt es
      .ok ((k2, v2) :: es2)
termination_by es => (sizeOf kt + sizeOf vt, 1 + sizeOf es)
decreasing_by
  · apply Prod.Lex.left; cases vt <;> simp_arith
  · apply Prod.Lex.left; cases kt <;> simp_arith
  · apply Prod.Lex.right; simp_arith

/-- `JsonDto.to_json(self)` (lines 72-80): iterate the type hints in order,
serialize each attribute, and keep only the entries whose serialized value
is not `None`.  (The source calls `serialize_value` twice on the same pure
arguments; the model calls the pure function once.) -/
def to_json (desc : RecordDesc) (fields : Fields) : Except String Fields :=
  match desc with
  | [] => .ok []
  | (name, ty, _) :: rest =>
      match lookupS fields name with
      | some v =>
          match serialize_value ty v with
          | .error e => .error e
          | .ok sv =>
              match to_json rest fields with
              | .error e => .error e
              | .ok out =>
                  match sv with
                  | .none => .ok out
                  | _ => .ok ((name, sv) :: out)
      | Option.none => .error "AttributeError"
termination_by (sizeOf desc, 0)
decreasing_by
  · apply Prod.Lex.left; simp_arith
  · apply Prod.Lex.left; simp_arith

end

/-- Resolution of one argument of the dataclass-generated constructor
`_class(**kwargs)`: a keyword argument wins; otherwise `default`, then
`default_factory`; a field with neither and no argument raises
`TypeError`. -/
def fieldArg (df : Dflt) : Option Val → Except String Val
  | some v => .ok v
  | Option.none =>
      match df with
      | .value w => .ok w
      | .factory w => .ok w
      | .missing => .error "TypeError: missing required argument"

/-- The dataclass-generated constructor's field loop. -/
def constructFields (desc : RecordDesc) (kwargs : Fields) : Except String Fields :=
  match desc with
  | [] => .ok []
  | (name, _, df) :: rest =>
      match fieldArg df (lookupS kwargs name) with
      | .error e => .error e
      | .ok v =>
          match constructFields rest kwargs with
          | .error e => .error e
          | .ok fs => .ok ((name, v) :: fs)

/-- `_class(**kwargs)`: build the instance's ordered field map.  (Keyword
arguments are always a subset of the field names here, so the unexpected-
keyword check of the generated constructor cannot fire.) -/
def construct (desc : RecordDesc) (kwargs : Fields) : Except String Val :=
  match constructFields desc kwargs with
  | .error e => .error e
  | .ok fs => .ok (.obj fs)

/-- The inner `deserialize_datetime(value)` (lines 85-94): an already-parsed
`datetime` passes through; a falsy value yields `None`; a truthy string is
parsed with the fixed format, a `ValueError` being caught (the diagnostic is
printed, not raised) and turned into `None`; `strptime` on a truthy
non-string raises `TypeError`, which the `except ValueError` does not
catch. -/
def deserialize_datetime (v : Val) : Except String Val :=
  match v with
  | .dt d => .ok (.dt d)
  | _ =>
      if truthy v then
        match v with
        | .str s =>
            .ok (match parseDT s.data with
                 | some d => .dt d
                 | Option.none => .none)
        | _ => .error "TypeError"
      else .ok .none

/-- The inner `deserialize_enum(value, enum_class)` (lines 96-97):
`enum_class[value]`, a name lookup; an unknown name raises `KeyError`. -/
def deserialize_enum (members : List String) (en : String) (v : Val) : Except String Val :=
  match v with
  | .str s => if members.contains s then .ok (.enumMember en s) else .error "KeyError"
  | _ => .error "KeyError"

mutual

/-- The inner `deserialize(type_, value)` of `JsonDto.from_json`
(lines 102-124).  `None` deserializes to `None` for every type; the six
plain types are coerced by calling the type; `datetime` / enums go through
their helpers; generic lists and dicts recurse; a nested `JsonDto` type
recurses into `from_json`; any other annotation raises
`NotImplementedError`. -/
def deserialize : Ty → Val → Except String Val
  | _, .none => .ok .none
  | .str, v => .ok (.str (pyStr v))
  | .int, v => do
      let n ← pyInt v
      .ok (.int n)
  | .bool, v => .ok (.bool (truthy v))
  | .float, v => do
      let q ← pyFloat v
      .ok (.float q)
  | .rawDict, v => do
      let es ← pyDict v
      .ok (.dict es)
  | .rawList, v => do
      let xs ← pyList v
      .ok (.list xs)
  | .datetime, v => deserialize_datetime v
  | .listOf t, v =>
      match v with
      | .list xs => do
          let ys ← deserialize_elems t xs
          .ok (.list ys)
      | _ => .error "TypeError"
  | .mapOf kt vt, v =>
      match v with
      | .dict es => do
          let fs ← deserialize_entries kt vt es
          .ok (.dict fs)
      | _ => .error "AttributeError"
  | .enum en members, v => deserialize_enum members en v
  | .record desc, v =>
      match v with
      | .dict es =>
          match buildKwargs desc es with
          | .error e => .error e
          | .ok kw => construct desc kw
      | _ => .error "TypeError"
  | .unsupported _, _ => .error "NotImplementedError: deserializer not implemented"
termination_by t _ => (sizeOf t, 0)
decreasing_by
  · apply Prod.Lex.left; simp_arith
  · apply Prod.Lex.left; simp_arith
  · apply Prod.Lex.left; simp_arith

/-- The list comprehension `[deserialize(generic_type, v) for v in value]`
(line 111). -/
def deserialize_elems (t : Ty) : List Val → Except String (List Val)
  | [] => .ok []
  | x :: xs => do
      let y ← deserialize t x
      let ys ← deserialize_elems t xs
      .ok (y :: ys)
termination_by xs => (sizeOf t, 1 + sizeOf xs)
decreasing_by
  · apply Prod.Lex.right; simp_arith
  · apply Prod.Lex.right; simp_arith

/-- The dict comprehension deserializing keys and values (lines 115-118). -/
def deserialize_entries (kt vt : Ty) : List (Val × Val) → Except String (List (Val × Val))
  | [] => .ok []
  | (k, v) :: es => do
      let k2 ← deserialize kt k
      let v2 ← deserialize vt v
      let es2 ← deserialize_entries kt vt es
      .ok ((k2, v2) :: es2)
termination_by es => (sizeOf kt + sizeOf vt, 1 + sizeOf es)
decreasing_by
  · apply Prod.Lex.left; cases vt <;> simp_arith
  · apply Prod.Lex.left; cases kt <;> simp_arith
  · apply Prod.Lex.right; simp_arith

/-- The dict comprehension of `from_json` (lines 129-132): iterate the type
hints in order and deserialize `payload[name]` for exactly the names present
as keys of the payload. -/
def buildKwargs (desc : RecordDesc) (payload : List (Val × Val)) : Except String Fields :=
  match desc with
  | [] => .ok []
  | (name, ty, _) :: rest =>
      match lookupD payload name with
      | some pv =>
          match deserialize ty pv with
          | .error e => .error e
          | .ok dv =>
              match buildKwargs rest payload with
              | .error e => .error e
              | .ok kw => .ok ((name, dv) :: kw)
      | Option.none => buildKwargs rest payload
termination_by (sizeOf desc, 0)
decreasing_by
  all_goals apply Prod.Lex.left
  all_goals simp_arith

end

/-- `JsonDto.from_json(payload)` (lines 82-133) for a mapped type with
descriptor `desc`: deserialize the present keys, then build the instance
through the all-fields constructor. -/
def from_json (desc : RecordDesc) (payload : List (Val × Val)) : Except String Val :=
  match buildKwargs desc payload with
  | .error e => .error e
  | .ok kw => construct desc kw

/-- A JSON-schema document fragment, as returned by the schema functions.
`SchemaV.none` is the Python `None` that `get_field_type` returns when it
falls off the end without matching any branch. -/
inductive SchemaV where
  | none : SchemaV
  | str : String → SchemaV
  | arr : List SchemaV → SchemaV
  | obj : List (String × SchemaV) → SchemaV

/-- The `types_map` lookup (lines 137-146) for a field annotation.  The map
also carries the abstract base class `enum.Enum` as a key, but a field is
annotated with a concrete `Enum` subclass, which is a different key, so
`Ty.enum` misses; generic aliases, `JsonDto` subclasses and unsupported
classes miss as well. -/
def types_map_get : Ty → Option String
  | .int => some "integer"
  | .float => some "number"
  | .str => some "string"
  | .bool => some "boolean"
  | .datetime => some "string"
  | .rawList => some "array"
  | .rawDict => some "object"
  | _ => Option.none

/-- `JsonDto.get_schema_required` (lines 178-184): `is_required` returns
`True` when `field.default == dataclasses.MISSING` — which also holds for a
field declared with only a `default_factory` — and implicitly returns the
falsy `None` otherwise. -/
def get_schema_required (desc : RecordDesc) : List String :=
  (desc.filter fun f =>
    match f.2.2 with
    | .value _ => false
    | .missing => true
    | .factory _ => true).map (·.1)

mutual

/-- `JsonDto.get_schema_properties` (lines 135-176): map each field name to
`get_field_type` of its annotation. -/
def get_schema_properties (desc : RecordDesc) : Except String (List (String × SchemaV)) :=
  match desc with
  | [] => .ok []
  | (n, ty, _) :: rest => do
      let v ← get_field_type ty
      let r ← get_schema_properties rest
      .ok ((n, v) :: r)
termination_by sizeOf desc
decreasing_by
  all_goals simp_arith

/-- The inner `get_field_type(field)` (lines 148-172).  The source's second
branch tests `isinstance(field.type, JsonDto)`: `field.type` is a class
object, never an *instance* of `JsonDto`, so that branch is dead code and a
field annotated directly with a `JsonDto` subclass falls through every
branch; the function then returns Python `None` (`SchemaV.none`), as does
any other unclassified annotation.  For generic lists and dicts whose
element type misses `types_map` the source calls
`generic_type.get_schema_properties()`, an `AttributeError` unless the
element type is a `JsonDto` subclass. -/
def get_field_type (t : Ty) : Except String SchemaV :=
  match types_map_get t with
  | some s => .ok (.obj [("type", .str s)])
  | Option.none =>
      match t with
      | .listOf g =>
          match types_map_get g with
          | some s => .ok (.obj [("type", .str "array"), ("items", .obj [("type", .str s)])])
          | Option.none =>
              match g with
              | .record nd => do
                  let p ← get_schema_properties nd
                  .ok (.obj [("type", .str "array"),
                             ("items", .obj [("type", .str "object"),
                                             ("properties", .obj p)])])
              | _ => .error "AttributeError"
      | .mapOf _ g =>
          match types_map_get g with
          | some s => .ok (.obj [("type", .str "object"),
                                 ("additionalProperties", .obj [("type", .str s)])])
          | Option.none =>
              match g with
              | .record nd => do
                  let p ← get_schema_properties nd
                  .ok (.obj [("type", .str "object"),
                             ("additionalProperties",
                              .obj [("type", .str "object"),
                                    ("properties", .obj p),
                                    ("required", .arr ((get_schema_required nd).map SchemaV.str))])])
              | _ => .error "AttributeError"
      | _ => .ok SchemaV.none
termination_by sizeOf t
decreasing_by
  all_goals simp_arith

end

/-- `JsonDto.get_json_schema` (lines 186-195) for a mapped type named
`title` with descriptor `desc`. -/
def get_json_schema (title : String) (desc : RecordDesc) : Except String SchemaV := do
  let p ← get_schema_properties desc
  .ok (.obj [("$schema", .str "http://json-schema.org/draft-04/schema#"),
             ("title", .str title),
             ("type", .str "object"),
             ("properties", .obj p),
             ("required", .arr ((get_schema_required desc).map SchemaV.str))])

/-- The serialized dict of a `to_json` result, with its string keys. -/
def wrapD (out : Fields) : List (Val × Val) := out.map fun p => (Val.str p.1, p.2)

mutual

/-- The well-typedness assumption of the round-trip property: the value fits
the annotation, restricted to the shapes the round trip is claimed for
(`None`, the six plain passthrough types, nested records, lists and maps of
fitting shapes; datetimes and enums are not among them). -/
def rtFits : Ty → Val → Prop
  | _, .none => True
  | .str, .str _ => True
  | .int, .int _ => True
  | .bool, .bool _ => True
  | .float, .float _ => True
  | .rawDict, .dict _ => True
  | .rawList, .list _ => True
  | .listOf t, .list xs => ∀ x ∈ xs, rtFits t x
  | .mapOf kt vt, .dict es => ∀ p ∈ es, rtFits kt p.1 ∧ rtFits vt p.2
  | .record desc, .obj f => rtRec desc f
  | _, _ => False
termination_by t _ => sizeOf t
decreasing_by
  all_goals simp_arith

/-- A mapped instance fits its descriptor: fields aligned by name with the
descriptor (names unrepeated), and every field value either fits its
annotation and is not `None`, or is `None` with a declared default of
`None` (the shape `to_json` omission reconstructs). -/
def rtRec : RecordDesc → Fields → Prop
  | [], [] => True
  | (n, ty, df) :: dr, (n2, v) :: fr =>
      n2 = n ∧ n ∉ dr.map (fun x => x.1) ∧
      ((v = .none ∧ df = .value .none) ∨ (v ≠ .none ∧ rtFits ty v)) ∧ rtRec dr fr
  | _, _ => False
termination_by desc _ => sizeOf desc
decreasing_by
  all_goals simp_arith

end

/-- Serialize-then-deserialize round trip at a single annotation. -/
def SDRound (t : Ty) (v : Val) : Prop :=
  ∃ s, serialize_value t v = .ok s ∧ (s = Val.none ↔ v = Val.none) ∧ deserialize t s = .ok v

@[simp] theorem isDig_dChar_mod (n : Nat) : isDig (dChar (n % 10)) = true := by
  have h : n % 10 < 10 := Nat.mod_lt _ (by norm_num)
  interval_cases h' : n % 10 <;> decide

@[simp] theorem dVal_dChar_mod (n : Nat) : dVal (dChar (n % 10)) = n % 10 := by
  have h : n % 10 < 10 := Nat.mod_lt _ (by norm_num)
  interval_cases h' : n % 10 <;> simp_all <;> decide

theorem deserialize_record_eq (desc : RecordDesc) (es : List (Val × Val)) :
    deserialize (.record desc) (.dict es) = from_json desc es := by
  simp [deserialize, from_json]
@[simp] theorem isDig_dash : isDig '-' = false := by decide

@[simp] theorem isDig_plus : isDig '+' = false := by decide

@[simp] theorem isDig_colon : isDig ':' = false := by decide

@[simp] theorem isDig_space : isDig ' ' = false := by decide

@[simp] theorem dChar_mod_ne_space (n : Nat) : ¬(dChar (n % 10) = ' ') := by
  have h : n % 10 < 10 := Nat.mod_lt _ (by norm_num)
  interval_cases h2 : n % 10 <;> decide

@[simp] theorem dChar_mod_ne_colon (n : Nat) : ¬(dChar (n % 10) = ':') := by
  have h : n % 10 < 10 := Nat.mod_lt _ (by norm_num)
  interval_cases h2 : n % 10 <;> decide

@[simp] theorem pyWhitespace_dChar_mod (n : Nat) : pyWhitespace (dChar (n % 10)) = false := by
  have h : n % 10 < 10 := Nat.mod_lt _ (by norm_num)
  interval_cases h2 : n % 10 <;> decide

@[simp] theorem pyWhitespace_space : pyWhitespace ' ' = true := by decide

theorem daysInMonth_le (y m : Nat) : daysInMonth y m ≤ 31 := by
  unfold daysInMonth
  split_ifs <;> omega

theorem parse4Dig_cons (y : Nat) (r : List Char) :
    parse4Dig (dChar (y / 1000 % 10) :: dChar (y / 100 % 10) :: dChar (y / 10 % 10) ::
      dChar (y % 10) :: r) =
    some (y / 1000 % 10 * 1000 + y / 100 % 10 * 100 + y / 10 % 10 * 10 + y % 10, r) := by
  simp [parse4Dig]

theorem parseRun2_cons_nondig (x : Nat) (c : Char) (r : List Char) (hc : isDig c = false) :
    parseRun2 (dChar (x / 10 % 10) :: dChar (x % 10) :: c :: r) =
      some (x / 10 % 10 * 10 + x % 10, c :: r) := by
  simp [parseRun2, hc]

theorem parseRun2_cons_nil (x : Nat) :
    parseRun2 [dChar (x / 10 % 10), dChar (x % 10)] =
      some (x / 10 % 10 * 10 + x % 10, []) := by
  simp [parseRun2]

theorem parseDay_cons (x : Nat) (c : Char) (r : List Char) (hc : isDig c = false) :
    parseDay (dChar (x / 10 % 10) :: dChar (x % 10) :: c :: r) =
      some (x / 10 % 10 * 10 + x % 10, c :: r) := by
  simp [parseDay, parseRun2, hc]

theorem parseMM_cons60 (x : Nat) (r : List Char) :
    parseMM (dChar (x % 60 / 10 % 10) :: dChar (x % 60 % 10) :: r) = some (x % 60, r) := by
  have h5 : x % 60 / 10 % 10 ≤ 5 := by omega
  have hr : x % 60 / 10 % 10 * 10 + x % 60 % 10 = x % 60 := by omega
  simp [parseMM, h5, hr]

theorem parseFrac_cons6 (u : Nat) :
    parseFrac [dChar (u % 1000000 / 100000 % 10), dChar (u % 1000000 / 10000 % 10),
      dChar (u % 1000000 / 1000 % 10), dChar (u % 1000000 / 100 % 10),
      dChar (u % 1000000 / 10 % 10), dChar (u % 1000000 % 10)] = some (u % 1000000) := by
  simp [parseFrac, List.foldl]
  omega

theorem parseTz_formatTz (off : Int) (h : off.natAbs < 86400000000) :
    parseTz (formatTz (some off)) = some off := by
  have hhr : off.natAbs / 3600000000 / 10 % 10 * 10 + off.natAbs / 3600000000 % 10 =
      off.natAbs / 3600000000 := by omega
  rcases lt_or_ge off 0 with hsg | hsg
  · simp only [formatTz, if_pos hsg]
    split_ifs with hus hss
    · have htot : off.natAbs / 3600000000 * 3600000000 +
          off.natAbs / 60000000 % 60 * 60000000 + off.natAbs / 1000000 % 60 * 1000000 +
          off.natAbs % 1000000 = off.natAbs := by omega
      simp only [pad2, pad6, List.cons_append, List.nil_append, List.append_assoc]
      rw [parseTz]
      simp +decide only [isDig_dChar_mod, dVal_dChar_mod, dChar_mod_ne_colon, parseMM_cons60,
        parseFracTail, parseFrac_cons6, Option.bind, hhr, htot, mkOff, h, Option.some.injEq,
        Bool.and_self, if_true, if_false]
      omega
    · have htot : off.natAbs / 3600000000 * 3600000000 +
          off.natAbs / 60000000 % 60 * 60000000 + off.natAbs / 1000000 % 60 * 1000000 + 0 =
          off.natAbs := by omega
      simp only [pad2, List.cons_append, List.nil_append, List.append_assoc]
      rw [parseTz]
      simp +decide only [isDig_dChar_mod, dVal_dChar_mod, dChar_mod_ne_colon, parseMM_cons60,
        parseFracTail, Option.bind, hhr, htot, mkOff, h, Option.some.injEq,
        Bool.and_self, if_true, if_false]
      omega
    · have htot : off.natAbs / 3600000000 * 3600000000 +
          off.natAbs / 60000000 % 60 * 60000000 = off.natAbs := by omega
      simp only [pad2, List.cons_append, List.nil_append, List.append_assoc]
      rw [parseTz]
      simp +decide only [isDig_dChar_mod, dVal_dChar_mod, dChar_mod_ne_colon, parseMM_cons60,
        Option.bind, hhr, htot, mkOff, h, Option.some.injEq, Bool.and_self, if_true, if_false]
      omega
  · simp only [formatTz, if_neg (not_lt.mpr hsg)]
    split_ifs with hus hss
    · have htot : off.natAbs / 3600000000 * 3600000000 +
          off.natAbs / 60000000 % 60 * 60000000 + off.natAbs / 1000000 % 60 * 1000000 +
          off.natAbs % 1000000 = off.natAbs := by omega
      simp only [pad2, pad6, List.cons_append, List.nil_append, List.append_assoc]
      rw [parseTz]
      simp +decide only [isDig_dChar_mod, dVal_dChar_mod, dChar_mod_ne_colon, parseMM_cons60,
        parseFracTail, parseFrac_cons6, Option.bind, hhr, htot, mkOff, h, Option.some.injEq,
        Bool.and_self, if_true, if_false]
      omega
    · have htot : off.natAbs / 3600000000 * 3600000000 +
          off.natAbs / 60000000 % 60 * 60000000 + off.natAbs / 1000000 % 60 * 1000000 + 0 =
          off.natAbs := by omega
      simp only [pad2, List.cons_append, List.nil_append, List.append_assoc]
      rw [parseTz]
      simp +decide only [isDig_dChar_mod, dVal_dChar_mod, dChar_mod_ne_colon, parseMM_cons60,
        parseFracTail, Option.bind, hhr, htot, mkOff, h, Option.some.injEq,
        Bool.and_self, if_true, if_false]
      omega
    · have htot : off.natAbs / 3600000000 * 3600000000 +
          off.natAbs / 60000000 % 60 * 60000000 = off.natAbs := by omega
      simp only [pad2, List.cons_append, List.nil_append, List.append_assoc]
      rw [parseTz]
      simp +decide only [isDig_dChar_mod, dVal_dChar_mod, dChar_mod_ne_colon, parseMM_cons60,
        Option.bind, hhr, htot, mkOff, h, Option.some.injEq, Bool.and_self, if_true, if_false]
      omega

theorem formatTz_some_head (off : Int) :
    ∃ t, formatTz (some off) = (if off < 0 then '-' else '+') :: t ∧
      isDig (if off < 0 then '-' else '+') = false := by
  simp only [formatTz]
  split_ifs <;> exact ⟨_, rfl, by decide⟩

theorem parseDT_formatDT (d : PyDatetime) (hv : d.ValidFields) (hy : 1000 ≤ d.year)
    (hd : d.day ≤ daysInMonth d.year d.month) (off : Int) (htz : d.tz = some off)
    (hoff : off.natAbs < 86400000000) : parseDT (formatDT d) = some d := by
  obtain ⟨y, mo, da, h, mi, se, tz⟩ := d
  obtain ⟨h1, h2, h3, h4, h5, h6, h7, h8⟩ := hv
  simp only at h1 h2 h3 h4 h5 h6 h7 h8 hd hy htz
  subst htz
  obtain ⟨t, ht, htd⟩ := formatTz_some_head off
  have hyr : y / 1000 % 10 * 1000 + y / 100 % 10 * 100 + y / 10 % 10 * 10 + y % 10 = y := by
    omega
  have hmor : mo / 10 % 10 * 10 + mo % 10 = mo := by omega
  have hdar : da / 10 % 10 * 10 + da % 10 = da := by have := daysInMonth_le y mo; omega
  have hhr : h / 10 % 10 * 10 + h % 10 = h := by omega
  have hmir : mi / 10 % 10 * 10 + mi % 10 = mi := by omega
  have hser : se / 10 % 10 * 10 + se % 10 = se := by omega
  have hfY : fmtYear y = pad4 y := by
    unfold fmtYear
    rw [if_neg (by omega), if_neg (by omega), if_neg (by omega)]
  simp only [formatDT, hfY, ht]
  simp only [pad4, pad2, List.cons_append, List.nil_append]
  rw [parseDT]
  simp +decide only [parse4Dig_cons, Option.bind, expectChar, parseRun2_cons_nondig,
    parseDay_cons, parseWs, dropWs, pyWhitespace_dChar_mod, pyWhitespace_space,
    isDig_dash, isDig_colon, isDig_space, htd, hyr, hmor, hdar, hhr, hmir, hser,
    h1, h3, h4, h5, hd, h6, h7, h8, if_true, if_false, Bool.and_self]
  rw [← ht, parseTz_formatTz off hoff]

theorem parseDT_formatDT_naive (d : PyDatetime) (htz : d.tz = Option.none) :
    parseDT (formatDT d) = Option.none := by
  obtain ⟨y, mo, da, h, mi, se, tz⟩ := d
  simp only at htz
  subst htz
  simp only [formatDT, formatTz]
  rcases Nat.lt_or_ge y 10 with hy1 | hy1
  · simp only [fmtYear, if_pos hy1, pad2, List.cons_append, List.nil_append, List.append_nil]
    simp [parseDT, parse4Dig, Option.bind]
  · rcases Nat.lt_or_ge y 100 with hy2 | hy2
    · simp only [fmtYear, if_neg (by omega : ¬(y < 10)), if_pos hy2, pad2,
        List.cons_append, List.nil_append, List.append_nil]
      simp [parseDT, parse4Dig, Option.bind]
    · rcases Nat.lt_or_ge y 1000 with hy3 | hy3
      · simp only [fmtYear, if_neg (by omega : ¬(y < 10)), if_neg (by omega : ¬(y < 100)),
          if_pos hy3, pad2, List.cons_append, List.nil_append, List.append_nil]
        simp [parseDT, parse4Dig, Option.bind]
      · have hfY : fmtYear y = pad4 y := by
          unfold fmtYear
          rw [if_neg (by omega), if_neg (by omega), if_neg (by omega)]
        simp only [hfY, pad4, pad2, List.cons_append, List.nil_append, List.append_nil]
        rw [parseDT]
        simp +decide only [parse4Dig_cons, Option.bind, expectChar, parseRun2_cons_nondig,
          parseRun2_cons_nil, parseDay_cons, parseWs, dropWs, pyWhitespace_dChar_mod,
          pyWhitespace_space, isDig_dash, isDig_colon, isDig_space, if_true, if_false,
          Bool.and_self, parseTz, ite_self]

theorem serialize_value_none (t : Ty) : serialize_value t .none = .ok .none := by
  cases t <;> simp [serialize_value]

/-- `None` deserializes to `None` under every annotation (first check of the
inner `deserialize`). -/
theorem deserialize_none (t : Ty) : deserialize t .none = .ok .none := by
  cases t <;> simp [deserialize]

theorem lookupD_wrapD (out : Fields) (n : String) :
    lookupD (wrapD out) n = lookupS out n := by
  induction out with
  | nil => rfl
  | cons p r ih =>
      obtain ⟨k, v⟩ := p
      simp only [wrapD, List.map_cons, lookupD, lookupS] at *
      split <;> simp_all

theorem to_json_congr (desc : RecordDesc) (f1 f2 : Fields)
    (h : ∀ n, n ∈ desc.map (fun x => x.1) → lookupS f1 n = lookupS f2 n) :
    to_json desc f1 = to_json desc f2 := by
  induction desc with
  | nil => rw [to_json.eq_def, to_json.eq_def]
  | cons hd rest ih =>
      obtain ⟨n, ty, df⟩ := hd
      have hn : lookupS f1 n = lookupS f2 n := h n (by simp)
      have hr : to_json rest f1 = to_json rest f2 := ih fun n hn2 => h n (by simp [hn2])
      rw [to_json.eq_def, to_json.eq_def]
      simp only [hn, hr]

theorem constructFields_congr (desc : RecordDesc) (kw1 kw2 : Fields)
    (h : ∀ n, n ∈ desc.map (fun x => x.1) → lookupS kw1 n = lookupS kw2 n) :
    constructFields desc kw1 = constructFields desc kw2 := by
  induction desc with
  | nil => rfl
  | cons hd rest ih =>
      obtain ⟨n, ty, df⟩ := hd
      have hn : lookupS kw1 n = lookupS kw2 n := h n (by simp)
      have hr : constructFields rest kw1 = constructFields rest kw2 :=
        ih fun n hn2 => h n (by simp [hn2])
      rw [constructFields.eq_def, constructFields.eq_def]
      simp only [hn, hr]

theorem lookupS_eq_none_of_not_mem {l : Fields} {n : String}
    (h : n ∉ l.map (fun p => p.1)) : lookupS l n = Option.none := by
  induction l with
  | nil => rfl
  | cons p r ih =>
      obtain ⟨k, v⟩ := p
      simp only [List.map_cons, List.mem_cons] at h
      push_neg at h
      obtain ⟨h1, h2⟩ := h
      have hk : ¬(k = n) := fun hk => h1 hk.symm
      simp [lookupS, ih h2, hk]

theorem elems_roundtrip (t : Ty) (hA : ∀ v, rtFits t v → SDRound t v) :
    ∀ xs : List Val, (∀ x ∈ xs, rtFits t x) →
    ∃ ys, serialize_elems t xs = .ok ys ∧ deserialize_elems t ys = .ok xs := by
  intro xs
  induction xs with
  | nil =>
      exact fun _ => ⟨[], by simp [serialize_elems], by simp [deserialize_elems]⟩
  | cons x xs ih =>
      intro h
      obtain ⟨s, hs, _, hds⟩ := hA x (h x (by simp))
      obtain ⟨ys, hys, hdys⟩ := ih (fun x hx => h x (by simp [hx]))
      refine ⟨s :: ys, ?_, ?_⟩
      · simp [serialize_elems, hs, hys, Except.bind, Bind.bind]
      · simp [deserialize_elems, hds, hdys, Except.bind, Bind.bind]

theorem entries_roundtrip (kt vt : Ty) (hK : ∀ v, rtFits kt v → SDRound kt v)
    (hV : ∀ v, rtFits vt v → SDRound vt v) :
    ∀ es : List (Val × Val), (∀ p ∈ es, rtFits kt p.1 ∧ rtFits vt p.2) →
    ∃ fs, serialize_entries kt vt es = .ok fs ∧ deserialize_entries kt vt fs = .ok es := by
  intro es
  induction es with
  | nil =>
      exact fun _ => ⟨[], by simp [serialize_entries], by simp [deserialize_entries]⟩
  | cons p es ih =>
      intro h
      obtain ⟨k, v⟩ := p
      obtain ⟨hk, hv⟩ := h (k, v) (by simp)
      obtain ⟨sk, hsk, _, hdk⟩ := hK k hk
      obtain ⟨sv, hsv, _, hdv⟩ := hV v hv
      obtain ⟨fs, hfs, hdfs⟩ := ih (fun p hp => h p (by simp [hp]))
      refine ⟨(sk, sv) :: fs, ?_, ?_⟩
      · simp [serialize_entries, hsk, hsv, hfs, Except.bind, Bind.bind]
      · simp [deserialize_entries, hdk, hdv, hdfs, Except.bind, Bind.bind]

theorem record_roundtrip_aux :
    ∀ (desc : RecordDesc) (f : Fields),
    (∀ ty v, sizeOf ty ≤ sizeOf desc → rtFits ty v → SDRound ty v) →
    rtRec desc f →
    ∃ out, to_json desc f = .ok out ∧
      (∀ n, n ∈ out.map (fun p => p.1) → n ∈ desc.map (fun x => x.1)) ∧
      (∀ payload, (∀ n, n ∈ desc.map (fun x => x.1) → lookupD payload n = lookupS out n) →
        ∃ kw, buildKwargs desc payload = .ok kw ∧
          (∀ n, n ∈ kw.map (fun p => p.1) → n ∈ desc.map (fun x => x.1)) ∧
          constructFields desc kw = .ok f) := by
  intro desc
  induction desc with
  | nil =>
      intro f hA h
      cases f with
      | nil =>
          refine ⟨[], by simp [to_json], by simp, ?_⟩
          intro payload _
          exact ⟨[], by simp [buildKwargs], by simp, by simp [constructFields]⟩
      | cons p fr => exact absurd h (by simp [rtRec])
  | cons hd dr ih =>
      obtain ⟨nd, ty, df⟩ := hd
      intro f hA h
      cases f with
      | nil => exact absurd h (by simp [rtRec])
      | cons p fr =>
          obtain ⟨n, v⟩ := p
          simp only [rtRec] at h
          obtain ⟨hn2, hnm, hv, hrec⟩ := h
          subst hn2
          have hA2 : ∀ ty2 v2, sizeOf ty2 ≤ sizeOf dr → rtFits ty2 v2 → SDRound ty2 v2 :=
            fun ty2 v2 hsz => hA ty2 v2 (le_trans hsz (by simp_arith))
          obtain ⟨out2, hto2, hon2, hbuild2⟩ := ih fr hA2 hrec
          have hlk : lookupS ((n, v) :: fr) n = some v := by simp [lookupS]
          have hcongr : to_json dr ((n, v) :: fr) = to_json dr fr := by
            refine to_json_congr dr _ fr fun n2 hn2 => ?_
            have hne : ¬(n = n2) := fun he => hnm (he ▸ hn2)
            simp [lookupS, hne]
          rcases hv with ⟨hveq, hdfeq⟩ | ⟨hvne, hfits⟩
          · -- value is None, declared default is None: the field is omitted
            subst hveq
            subst hdfeq
            refine ⟨out2, ?_, ?_, ?_⟩
            · simp [to_json, hlk, serialize_value_none, hcongr, hto2,
                Except.bind, Bind.bind]
            · exact fun n2 hn2 => by simp [hon2 n2 hn2]
            · intro payload hpay
              have hout2n : lookupS out2 n = Option.none :=
                lookupS_eq_none_of_not_mem (fun hmem => hnm (hon2 n hmem))
              have hpayn : lookupD payload n = Option.none := by
                rw [hpay n (by simp), hout2n]
              obtain ⟨kw, hkw, hkwn, hcf⟩ :=
                hbuild2 payload (fun n2 hn2 => hpay n2 (by simp [hn2]))
              have hkwnone : lookupS kw n = Option.none :=
                lookupS_eq_none_of_not_mem (fun hmem => hnm (hkwn n hmem))
              refine ⟨kw, ?_, ?_, ?_⟩
              · simp [buildKwargs, hpayn, hkw]
              · exact fun n2 hn2 => by simp [hkwn n2 hn2]
              · simp [constructFields, hkwnone, fieldArg, hcf, Except.bind, Bind.bind]
          · -- value is not None: the field appears in the serialized dict
            obtain ⟨s, hs, hiff, hds⟩ := hA ty v (by simp_arith) hfits
            have hsne : s ≠ Val.none := fun he => hvne (hiff.mp he)
            have hto : to_json ((n, ty, df) :: dr) ((n, v) :: fr) = Except.ok ((n, s) :: out2) := by
              cases s with
              | none => exact absurd rfl hsne
              | str a => simp [to_json, hlk, hs, hcongr, hto2, Except.bind, Bind.bind]
              | int a => simp [to_json, hlk, hs, hcongr, hto2, Except.bind, Bind.bind]
              | bool a => simp [to_json, hlk, hs, hcongr, hto2, Except.bind, Bind.bind]
              | float a => simp [to_json, hlk, hs, hcongr, hto2, Except.bind, Bind.bind]
              | dt a => simp [to_json, hlk, hs, hcongr, hto2, Except.bind, Bind.bind]
              | enumMember a b => simp [to_json, hlk, hs, hcongr, hto2, Except.bind, Bind.bind]
              | list a => simp [to_json, hlk, hs, hcongr, hto2, Except.bind, Bind.bind]
              | dict a => simp [to_json, hlk, hs, hcongr, hto2, Except.bind, Bind.bind]
              | obj a => simp [to_json, hlk, hs, hcongr, hto2, Except.bind, Bind.bind]
            refine ⟨(n, s) :: out2, hto, ?_, ?_⟩
            · intro n2 hn2
              simp only [List.map_cons, List.mem_cons] at hn2
              rcases hn2 with he | hmem
              · simp [he]
              · simp [hon2 n2 hmem]
            · intro payload hpay
              have hpayn : lookupD payload n = some s := by
                rw [hpay n (by simp)]; simp [lookupS]
              obtain ⟨kw, hkw, hkwn, hcf⟩ := hbuild2 payload (fun n2 hn2 => by
                have hne : ¬(n = n2) := fun he => hnm (he ▸ hn2)
                rw [hpay n2 (by simp [hn2])]
                simp [lookupS, hne])
              have hcfcongr : constructFields dr ((n, v) :: kw) = constructFields dr kw := by
                refine constructFields_congr dr _ kw fun n2 hn2 => ?_
                have hne : ¬(n = n2) := fun he => hnm (he ▸ hn2)
                simp [lookupS, hne]
              refine ⟨(n, v) :: kw, ?_, ?_, ?_⟩
              · simp [buildKwargs, hpayn, hds, hkw, Except.bind, Bind.bind]
              · intro n2 hn2
                simp only [List.map_cons, List.mem_cons] at hn2
                rcases hn2 with he | hmem
                · simp [he]
                · simp [hkwn n2 hmem]
              · simp [constructFields, lookupS, fieldArg, hcfcongr, hcf,
                  Except.bind, Bind.bind]

theorem sd_roundtrip : ∀ (t : Ty) (v : Val), rtFits t v → SDRound t v := by
  have main : ∀ k : Nat, ∀ t : Ty, sizeOf t ≤ k → ∀ v, rtFits t v → SDRound t v := by
    intro k
    induction k using Nat.strong_induction_on with
    | _ k IHk =>
      intro t hszt v hfit
      cases t with
      | str =>
          cases v with
          | none => exact ⟨.none, serialize_value_none _, by simp, deserialize_none _⟩
          | str s => exact ⟨.str s, by simp [serialize_value], by simp,
              by simp [deserialize, pyStr]⟩
          | _ => exact absurd hfit (by simp [rtFits])
      | int =>
          cases v with
          | none => exact ⟨.none, serialize_value_none _, by simp, deserialize_none _⟩
          | int m => exact ⟨.int m, by simp [serialize_value], by simp,
              by simp [deserialize, pyInt, Except.bind, Bind.bind]⟩
          | _ => exact absurd hfit (by simp [rtFits])
      | bool =>
          cases v with
          | none => exact ⟨.none, serialize_value_none _, by simp, deserialize_none _⟩
          | bool b => exact ⟨.bool b, by simp [serialize_value], by simp,
              by simp [deserialize, truthy]⟩
          | _ => exact absurd hfit (by simp [rtFits])
      | float =>
          cases v with
          | none => exact ⟨.none, serialize_value_none _, by simp, deserialize_none _⟩
          | float q => exact ⟨.float q, by simp [serialize_value], by simp,
              by simp [deserialize, pyFloat, Except.bind, Bind.bind]⟩
          | _ => exact absurd hfit (by simp [rtFits])
      | rawDict =>
          cases v with
          | none => exact ⟨.none, serialize_value_none _, by simp, deserialize_none _⟩
          | dict es => exact ⟨.dict es, by simp [serialize_value], by simp,
              by simp [deserialize, pyDict, Except.bind, Bind.bind]⟩
          | _ => exact absurd hfit (by simp [rtFits])
      | rawList =>
          cases v with
          | none => exact ⟨.none, serialize_value_none _, by simp, deserialize_none _⟩
          | list xs => exact ⟨.list xs, by simp [serialize_value], by simp,
              by simp [deserialize, pyList, Except.bind, Bind.bind]⟩
          | _ => exact absurd hfit (by simp [rtFits])
      | datetime =>
          cases v with
          | none => exact ⟨.none, serialize_value_none _, by simp, deserialize_none _⟩
          | _ => exact absurd hfit (by simp [rtFits])
      | enum en members =>
          cases v with
          | none => exact ⟨.none, serialize_value_none _, by simp, deserialize_none _⟩
          | _ => exact absurd hfit (by simp [rtFits])
      | unsupported nm =>
          cases v with
          | none => exact ⟨.none, serialize_value_none _, by simp, deserialize_none _⟩
          | _ => exact absurd hfit (by simp [rtFits])
      | listOf t2 =>
          cases v with
          | none => exact ⟨.none, serialize_value_none _, by simp, deserialize_none _⟩
          | list xs =>
              simp only [rtFits] at hfit
              have hA : ∀ v, rtFits t2 v → SDRound t2 v :=
                fun v hv => IHk (sizeOf t2) (lt_of_lt_of_le (by simp_arith; try omega) hszt)
                  t2 le_rfl v hv
              obtain ⟨ys, h1, h2⟩ := elems_roundtrip t2 hA xs hfit
              exact ⟨.list ys, by simp [serialize_value, h1, Except.bind, Bind.bind],
                by simp, by simp [deserialize, h2, Except.bind, Bind.bind]⟩
          | _ => exact absurd hfit (by simp [rtFits])
      | mapOf kt vt =>
          cases v with
          | none => exact ⟨.none, serialize_value_none _, by simp, deserialize_none _⟩
          | dict es =>
              simp only [rtFits] at hfit
              have hK : ∀ v, rtFits kt v → SDRound kt v :=
                fun v hv => IHk (sizeOf kt) (lt_of_lt_of_le (by simp_arith; try omega) hszt)
                  kt le_rfl v hv
              have hV : ∀ v, rtFits vt v → SDRound vt v :=
                fun v hv => IHk (sizeOf vt) (lt_of_lt_of_le (by simp_arith; try omega) hszt)
                  vt le_rfl v hv
              obtain ⟨fs, h1, h2⟩ := entries_roundtrip kt vt hK hV es hfit
              exact ⟨.dict fs, by simp [serialize_value, h1, Except.bind, Bind.bind],
                by simp, by simp [deserialize, h2, Except.bind, Bind.bind]⟩
          | _ => exact absurd hfit (by simp [rtFits])
      | record desc =>
          cases v with
          | none => exact ⟨.none, serialize_value_none _, by simp, deserialize_none _⟩
          | obj f =>
              simp only [rtFits] at hfit
              have hA : ∀ ty v, sizeOf ty ≤ sizeOf desc → rtFits ty v → SDRound ty v :=
                fun ty v hsz hf =>
                  IHk (sizeOf desc) (lt_of_lt_of_le (by simp_arith; try omega) hszt) ty hsz v hf
              obtain ⟨out, hto, _, hbuild⟩ := record_roundtrip_aux desc f hA hfit
              obtain ⟨kw, hkw, _, hcf⟩ := hbuild (wrapD out) (fun n _ => lookupD_wrapD out n)
              refine ⟨.dict (wrapD out), ?_, by simp, ?_⟩
              · simp [serialize_value, hto, wrapD, Except.bind, Bind.bind]
              · simp [deserialize, hkw, construct, hcf, Except.bind, Bind.bind]
          | _ => exact absurd hfit (by simp [rtFits])
  exact fun t v h => main (sizeOf t) t le_rfl v h

/-- **C1**: for every mapped record type and every instance that fits it —
fields of the supported round-trip shapes (primitives, nested records,
list-of-record, map-of-record, and lists/maps of such), each `None`-valued
field declaring `None` as its default — deserializing the serialization
yields an instance equal to the original field-for-field:
`from_json(to_json(x)) == x`. -/
theorem from_json_to_json_id (desc : RecordDesc) (f : Fields) (h : rtRec desc f) :
    (to_json desc f).bind (fun out => from_json desc (wrapD out)) = .ok (.obj f) := by
  have hA : ∀ ty v, sizeOf ty ≤ sizeOf desc → rtFits ty v → SDRound ty v :=
    fun ty v _ hf => sd_roundtrip ty v hf
  obtain ⟨out, hto, _, hbuild⟩ := record_roundtrip_aux desc f hA h
  obtain ⟨kw, hkw, _, hcf⟩ := hbuild (wrapD out) (fun n _ => lookupD_wrapD out n)
  simp [hto, from_json, hkw, construct, hcf, Except.bind, Bind.bind]

/-- Witness for `from_json_to_json_id`: a record with primitive fields, a
nested record, a list of records, a map of records, and an optional field
that is `None` with declared default `None`. -/
theorem from_json_to_json_id_witness :
    rtRec
      [("my_int", .int, .missing), ("my_str", .str, .missing), ("my_float", .float, .missing),
       ("my_bool", .bool, .missing), ("my_dict", .rawDict, .missing),
       ("nested", .record [("id", .int, .missing), ("name", .str, .missing)], .missing),
       ("my_list", .listOf (.record [("id", .int, .missing), ("name", .str, .missing)]),
        .missing),
       ("my_map", .mapOf .str (.record [("id", .int, .missing), ("name", .str, .missing)]),
        .missing),
       ("opt", .int, .value Val.none)]
      [("my_int", .int 123), ("my_str", .str "foo"), ("my_float", .float (333 / 50)),
       ("my_bool", .bool true), ("my_dict", .dict [(.str "a", .str "b")]),
       ("nested", .obj [("id", .int 1), ("name", .str "x")]),
       ("my_list", .list [.obj [("id", .int 1), ("name", .str "foo")],
                          .obj [("id", .int 2), ("name", .str "bar")]]),
       ("my_map", .dict [(.str "k", .obj [("id", .int 3), ("name", .str "baz")])]),
       ("opt", Val.none)] ∧
    (to_json
      [("my_int", .int, .missing), ("my_str", .str, .missing), ("my_float", .float, .missing),
       ("my_bool", .bool, .missing), ("my_dict", .rawDict, .missing),
       ("nested", .record [("id", .int, .missing), ("name", .str, .missing)], .missing),
       ("my_list", .listOf (.record [("id", .int, .missing), ("name", .str, .missing)]),
        .missing),
       ("my_map", .mapOf .str (.record [("id", .int, .missing), ("name", .str, .missing)]),
        .missing),
       ("opt", .int, .value Val.none)]
      [("my_int", .int 123), ("my_str", .str "foo"), ("my_float", .float (333 / 50)),
       ("my_bool", .bool true), ("my_dict", .dict [(.str "a", .str "b")]),
       ("nested", .obj [("id", .int 1), ("name", .str "x")]),
       ("my_list", .list [.obj [("id", .int 1), ("name", .str "foo")],
                          .obj [("id", .int 2), ("name", .str "bar")]]),
       ("my_map", .dict [(.str "k", .obj [("id", .int 3), ("name", .str "baz")])]),
       ("opt", Val.none)]).bind
      (fun out => from_json
        [("my_int", .int, .missing), ("my_str", .str, .missing), ("my_float", .float, .missing),
         ("my_bool", .bool, .missing), ("my_dict", .rawDict, .missing),
         ("nested", .record [("id", .int, .missing), ("name", .str, .missing)], .missing),
         ("my_list", .listOf (.record [("id", .int, .missing), ("name", .str, .missing)]),
          .missing),
         ("my_map", .mapOf .str (.record [("id", .int, .missing), ("name", .str, .missing)]),
          .missing),
         ("opt", .int, .value Val.none)] (wrapD out)) =
      .ok (.obj
        [("my_int", .int 123), ("my_str", .str "foo"), ("my_float", .float (333 / 50)),
         ("my_bool", .bool true), ("my_dict", .dict [(.str "a", .str "b")]),
         ("nested", .obj [("id", .int 1), ("name", .str "x")]),
         ("my_list", .list [.obj [("id", .int 1), ("name", .str "foo")],
                            .obj [("id", .int 2), ("name", .str "bar")]]),
         ("my_map", .dict [(.str "k", .obj [("id", .int 3), ("name", .str "baz")])]),
         ("opt", Val.none)]) := by
  have hfit : rtRec
      [("my_int", .int, .missing), ("my_str", .str, .missing), ("my_float", .float, .missing),
       ("my_bool", .bool, .missing), ("my_dict", .rawDict, .missing),
       ("nested", .record [("id", .int, .missing), ("name", .str, .missing)], .missing),
       ("my_list", .listOf (.record [("id", .int, .missing), ("name", .str, .missing)]),
        .missing),
       ("my_map", .mapOf .str (.record [("id", .int, .missing), ("name", .str, .missing)]),
        .missing),
       ("opt", .int, .value Val.none)]
      [("my_int", .int 123), ("my_str", .str "foo"), ("my_float", .float (333 / 50)),
       ("my_bool", .bool true), ("my_dict", .dict [(.str "a", .str "b")]),
       ("nested", .obj [("id", .int 1), ("name", .str "x")]),
       ("my_list", .list [.obj [("id", .int 1), ("name", .str "foo")],
                          .obj [("id", .int 2), ("name", .str "bar")]]),
       ("my_map", .dict [(.str "k", .obj [("id", .int 3), ("name", .str "baz")])]),
       ("opt", Val.none)] := by
    simp [rtRec, rtFits]
  exact ⟨hfit, from_json_to_json_id _ _ hfit⟩

theorem to_json_names_subset :
    ∀ (desc : RecordDesc) (fields out : Fields), to_json desc fields = .ok out →
    ∀ n, n ∈ out.map (fun p => p.1) → n ∈ desc.map (fun x => x.1) := by
  intro desc
  induction desc with
  | nil =>
      intro fields out h n hn
      simp [to_json] at h
      subst h
      simp at hn
  | cons hd dr ih =>
      obtain ⟨n0, ty0, df0⟩ := hd
      intro fields out h n hn
      rw [to_json.eq_def] at h
      dsimp only at h
      cases hl : lookupS fields n0 <;> rw [hl] at h <;> dsimp only at h
      · exact absurd h (by simp)
      case some v0 =>
        cases hs : serialize_value ty0 v0 <;> rw [hs] at h <;> dsimp only at h
        · exact absurd h (by simp)
        case ok sv =>
          cases hr : to_json dr fields <;> rw [hr] at h <;> dsimp only at h
          · exact absurd h (by simp)
          case ok out2 =>
            have hsub := ih fields out2 hr
            cases sv <;> simp only [Except.ok.injEq] at h <;> subst h
            case none => exact List.mem_cons_of_mem _ (hsub n hn)
            all_goals
              simp only [List.map_cons, List.mem_cons] at hn
              rcases hn with he | hmem
              · simp [he]
              · exact List.mem_cons_of_mem _ (hsub n hmem)

theorem from_json_ok_inv {desc : RecordDesc} {payload : List (Val × Val)} {fs : Fields}
    (h : from_json desc payload = .ok (.obj fs)) :
    ∃ kw, buildKwargs desc payload = .ok kw ∧ constructFields desc kw = .ok fs := by
  rw [from_json] at h
  cases hb : buildKwargs desc payload <;> rw [hb] at h <;> dsimp only at h
  · exact absurd h (by simp)
  case ok kw =>
    rw [construct] at h
    cases hc : constructFields desc kw <;> rw [hc] at h <;> dsimp only at h
    · exact absurd h (by simp)
    case ok fs2 =>
      simp only [Except.ok.injEq, Val.obj.injEq] at h
      exact ⟨kw, rfl, by rw [hc, h]⟩

theorem to_json_omits_none :
    ∀ (desc : RecordDesc) (fields out : Fields) (name : String) (ty : Ty) (df : Dflt) (v : Val),
    (desc.map (fun x => x.1)).Nodup →
    to_json desc fields = .ok out →
    (name, ty, df) ∈ desc →
    lookupS fields name = some v →
    serialize_value ty v = .ok .none →
    name ∉ out.map (fun p => p.1) := by
  intro desc
  induction desc with
  | nil => intro fields out name ty df v _ _ hmem; simp at hmem
  | cons hd dr ih =>
      obtain ⟨n0, ty0, df0⟩ := hd
      intro fields out name ty df v hnd h hmem hlk hser
      simp only [List.map_cons, List.nodup_cons] at hnd
      obtain ⟨hn0, hndr⟩ := hnd
      rw [to_json.eq_def] at h
      dsimp only at h
      cases hl : lookupS fields n0 <;> rw [hl] at h <;> dsimp only at h
      · exact absurd h (by simp)
      case some v0 =>
        cases hs : serialize_value ty0 v0 <;> rw [hs] at h <;> dsimp only at h
        · exact absurd h (by simp)
        case ok sv =>
          cases hr : to_json dr fields <;> rw [hr] at h <;> dsimp only at h
          · exact absurd h (by simp)
          case ok out2 =>
            simp only [List.mem_cons] at hmem
            rcases hmem with he | hmem
            · -- the field is the head: its serialized value is None, so it is
              -- omitted and cannot be a key of the rest either
              injection he with he1 he2
              injection he2 with he2 he3
              subst he1; subst he2
              rw [hlk] at hl
              injection hl with hl
              subst hl
              rw [hser] at hs
              injection hs with hs
              subst hs
              simp only [Except.ok.injEq] at h
              subst h
              exact fun hmem2 => hn0 (to_json_names_subset dr fields out2 hr name hmem2)
            · -- the field is in the tail
              have hnamedr : name ∈ dr.map (fun x => x.1) := by
                simpa using List.mem_map_of_mem (fun x => x.1) hmem
              have hne : ¬(name = n0) := fun he => hn0 (he ▸ hnamedr)
              have htail := ih fields out2 name ty df v hndr hr hmem hlk hser
              cases sv <;> simp only [Except.ok.injEq] at h <;> subst h
              case none => exact htail
              all_goals
                simp only [List.map_cons, List.mem_cons]
                push_neg
                exact ⟨hne, htail⟩

theorem buildKwargs_absent_key :
    ∀ (desc : RecordDesc) (payload : List (Val × Val)) (kw : Fields) (name : String),
    lookupD payload name = Option.none →
    buildKwargs desc payload = .ok kw →
    lookupS kw name = Option.none := by
  intro desc
  induction desc with
  | nil =>
      intro payload kw name _ h
      simp [buildKwargs] at h
      subst h
      rfl
  | cons hd dr ih =>
      obtain ⟨n0, ty0, df0⟩ := hd
      intro payload kw name hno h
      rw [buildKwargs.eq_def] at h
      dsimp only at h
      cases hl : lookupD payload n0 <;> rw [hl] at h <;> dsimp only at h
      · exact ih payload kw name hno h
      case some pv =>
        cases hdv : deserialize ty0 pv <;> rw [hdv] at h <;> dsimp only at h
        · exact absurd h (by simp)
        case ok dv =>
          cases hbk : buildKwargs dr payload <;> rw [hbk] at h <;> dsimp only at h
          · exact absurd h (by simp)
          case ok kw2 =>
            simp only [Except.ok.injEq] at h
            subst h
            have hne : ¬(n0 = name) := fun he => by rw [he, hno] at hl; exact absurd hl (by simp)
            simp [lookupS, hne, ih payload kw2 name hno hbk]

theorem buildKwargs_present_key :
    ∀ (desc : RecordDesc) (payload : List (Val × Val)) (kw : Fields)
      (name : String) (ty : Ty) (df : Dflt) (pv w : Val),
    (desc.map (fun x => x.1)).Nodup →
    (name, ty, df) ∈ desc →
    lookupD payload name = some pv →
    deserialize ty pv = .ok w →
    buildKwargs desc payload = .ok kw →
    lookupS kw name = some w := by
  intro desc
  induction desc with
  | nil => intro _ _ _ _ _ _ _ _ hmem; simp at hmem
  | cons hd dr ih =>
      obtain ⟨n0, ty0, df0⟩ := hd
      intro payload kw name ty df pv w hnd hmem hpv hde h
      simp only [List.map_cons, List.nodup_cons] at hnd
      obtain ⟨hn0, hndr⟩ := hnd
      rw [buildKwargs.eq_def] at h
      dsimp only at h
      simp only [List.mem_cons] at hmem
      rcases hmem with he | hmem
      · injection he with he1 he2
        injection he2 with he2 he3
        subst he1; subst he2
        rw [hpv] at h
        dsimp only at h
        rw [hde] at h
        dsimp only at h
        cases hbk : buildKwargs dr payload <;> rw [hbk] at h <;> dsimp only at h
        · exact absurd h (by simp)
        case ok kw2 =>
          simp only [Except.ok.injEq] at h
          subst h
          simp [lookupS]
      · have hnamedr : name ∈ dr.map (fun x => x.1) := by
          simpa using List.mem_map_of_mem (fun x => x.1) hmem
        have hne : ¬(n0 = name) := fun he => hn0 (he ▸ hnamedr)
        cases hl : lookupD payload n0 <;> rw [hl] at h <;> dsimp only at h
        · exact ih payload kw name ty df pv w hndr hmem hpv hde h
        case some pv0 =>
          cases hdv : deserialize ty0 pv0 <;> rw [hdv] at h <;> dsimp only at h
          · exact absurd h (by simp)
          case ok dv =>
            cases hbk : buildKwargs dr payload <;> rw [hbk] at h <;> dsimp only at h
            · exact absurd h (by simp)
            case ok kw2 =>
              simp only [Except.ok.injEq] at h
              subst h
              simp [lookupS, hne, ih payload kw2 name ty df pv w hndr hmem hpv hde hbk]

theorem constructFields_lookup :
    ∀ (desc : RecordDesc) (kw fs : Fields) (name : String) (ty : Ty) (df : Dflt) (w : Val),
    (desc.map (fun x => x.1)).Nodup →
    (name, ty, df) ∈ desc →
    constructFields desc kw = .ok fs →
    fieldArg df (lookupS kw name) = .ok w →
    lookupS fs name = some w := by
  intro desc
  induction desc with
  | nil => intro _ _ _ _ _ _ _ hmem; simp at hmem
  | cons hd dr ih =>
      obtain ⟨n0, ty0, df0⟩ := hd
      intro kw fs name ty df w hnd hmem h hfa
      simp only [List.map_cons, List.nodup_cons] at hnd
      obtain ⟨hn0, hndr⟩ := hnd
      rw [constructFields.eq_def] at h
      dsimp only at h
      simp only [List.mem_cons] at hmem
      rcases hmem with he | hmem
      · injection he with he1 he2
        injection he2 with he2 he3
        subst he1; subst he3
        rw [hfa] at h
        dsimp only at h
        cases hcf : constructFields dr kw <;> rw [hcf] at h <;> dsimp only at h
        · exact absurd h (by simp)
        case ok fs2 =>
          simp only [Except.ok.injEq] at h
          subst h
          simp [lookupS]
      · have hnamedr : name ∈ dr.map (fun x => x.1) := by
          simpa using List.mem_map_of_mem (fun x => x.1) hmem
        have hne : ¬(n0 = name) := fun he => hn0 (he ▸ hnamedr)
        cases hfa0 : fieldArg df0 (lookupS kw n0) <;> rw [hfa0] at h <;> dsimp only at h
        · exact absurd h (by simp)
        case ok v0 =>
          cases hcf : constructFields dr kw <;> rw [hcf] at h <;> dsimp only at h
          · exact absurd h (by simp)
          case ok fs2 =>
            simp only [Except.ok.injEq] at h
            subst h
            simp [lookupS, hne, ih kw fs2 name ty df w hndr hmem hcf hfa]

/-- **C2**: a field whose serialized value is `None` is not a key of the
mapping `to_json` produces; and a field whose key is absent from the input
mapping is not passed to the constructor, so `from_json` leaves it at the
field's own declared default (plain `default` or `default_factory`
value). -/
theorem optional_field_omission :
    (∀ (desc : RecordDesc) (fields out : Fields) (name : String) (ty : Ty) (df : Dflt)
       (v : Val),
       (desc.map (fun x => x.1)).Nodup →
       to_json desc fields = .ok out →
       (name, ty, df) ∈ desc →
       lookupS fields name = some v →
       serialize_value ty v = .ok .none →
       name ∉ out.map (fun p => p.1)) ∧
    (∀ (desc : RecordDesc) (payload : List (Val × Val)) (fs : Fields) (name : String)
       (ty : Ty) (df : Dflt) (w : Val),
       (desc.map (fun x => x.1)).Nodup →
       (name, ty, df) ∈ desc →
       lookupD payload name = Option.none →
       (df = .value w ∨ df = .factory w) →
       from_json desc payload = .ok (.obj fs) →
       lookupS fs name = some w) := by
  constructor
  · exact to_json_omits_none
  · intro desc payload fs name ty df w hnd hmem hno hdf h
    obtain ⟨kw, hbk, hcf⟩ := from_json_ok_inv h
    have hkwno : lookupS kw name = Option.none :=
      buildKwargs_absent_key desc payload kw name hno hbk
    have hfa : fieldArg df (lookupS kw name) = .ok w := by
      rw [hkwno]
      rcases hdf with he | he <;> subst he <;> rfl
    exact constructFields_lookup desc kw fs name ty df w hnd hmem hcf hfa

/-- Witness for `optional_field_omission`: an `int` field holding `None`
with declared default `None` is omitted by `to_json`; a `str` field with
default `"z"` whose key is absent deserializes to `"z"`. -/
theorem optional_field_omission_witness :
    ("a" ∉ (([] : Fields)).map (fun p => p.1)) ∧
    lookupS [("a", Val.int 1), ("b", Val.str "z")] "b" = some (Val.str "z") := by
  constructor
  · exact optional_field_omission.1 [("a", .int, .value Val.none)] [("a", Val.none)] []
      "a" .int (.value Val.none) Val.none (by simp)
      (by simp [to_json, lookupS, serialize_value_none]) (by simp) (by simp [lookupS])
      (serialize_value_none _)
  · exact optional_field_omission.2
      [("a", .int, .missing), ("b", .str, .value (Val.str "z"))]
      [(Val.str "a", Val.int 1)] [("a", Val.int 1), ("b", Val.str "z")]
      "b" .str (.value (Val.str "z")) (Val.str "z") (by simp) (by simp)
      (by simp [lookupD]) (Or.inl rfl)
      (by simp [from_json, buildKwargs, lookupD, deserialize, pyInt, construct,
        constructFields, fieldArg, lookupS, Except.bind, Bind.bind])

/-- **C10**: a key present with a null value binds the field explicitly to
`None` (it is passed to the constructor as `None`), not to the declared
default; hence a present-but-null key and an absent key give different
results whenever the field's declared default is not `None`. -/
theorem present_null_field_binds_none :
    (∀ (desc : RecordDesc) (payload : List (Val × Val)) (fs : Fields) (name : String)
       (ty : Ty) (df : Dflt),
       (desc.map (fun x => x.1)).Nodup →
       (name, ty, df) ∈ desc →
       lookupD payload name = some Val.none →
       from_json desc payload = .ok (.obj fs) →
       lookupS fs name = some Val.none) ∧
    (∀ (desc : RecordDesc) (p1 p2 : List (Val × Val)) (fs1 fs2 : Fields) (name : String)
       (ty : Ty) (w : Val),
       (desc.map (fun x => x.1)).Nodup →
       (name, ty, .value w) ∈ desc →
       w ≠ Val.none →
       lookupD p1 name = some Val.none →
       lookupD p2 name = Option.none →
       from_json desc p1 = .ok (.obj fs1) →
       from_json desc p2 = .ok (.obj fs2) →
       lookupS fs1 name ≠ lookupS fs2 name) := by
  have part1 : ∀ (desc : RecordDesc) (payload : List (Val × Val)) (fs : Fields)
      (name : String) (ty : Ty) (df : Dflt),
      (desc.map (fun x => x.1)).Nodup →
      (name, ty, df) ∈ desc →
      lookupD payload name = some Val.none →
      from_json desc payload = .ok (.obj fs) →
      lookupS fs name = some Val.none := by
    intro desc payload fs name ty df hnd hmem hnull h
    obtain ⟨kw, hbk, hcf⟩ := from_json_ok_inv h
    have hkw : lookupS kw name = some Val.none :=
      buildKwargs_present_key desc payload kw name ty df Val.none Val.none hnd hmem hnull
        (deserialize_none ty) hbk
    exact constructFields_lookup desc kw fs name ty df Val.none hnd hmem hcf
      (by rw [hkw]; rfl)
  refine ⟨part1, ?_⟩
  intro desc p1 p2 fs1 fs2 name ty w hnd hmem hw hnull hno h1 h2
  have hl1 : lookupS fs1 name = some Val.none :=
    part1 desc p1 fs1 name ty (.value w) hnd hmem hnull h1
  have hl2 : lookupS fs2 name = some w := by
    obtain ⟨kw, hbk, hcf⟩ := from_json_ok_inv h2
    have hkwno : lookupS kw name = Option.none :=
      buildKwargs_absent_key desc p2 kw name hno hbk
    exact constructFields_lookup desc kw fs2 name ty (.value w) w hnd hmem hcf
      (by rw [hkwno]; rfl)
  rw [hl1, hl2]
  simp
  exact fun he => hw he.symm

/-- Witness for `present_null_field_binds_none`: field `b` has default
`"z"`; a payload with `b: null` yields `None`, a payload without `b` yields
`"z"`. -/
theorem present_null_field_binds_none_witness :
    lookupS [("a", Val.int 1), ("b", Val.none)] "b" = some Val.none ∧
    lookupS [("a", Val.int 1), ("b", Val.none)] "b" ≠
      lookupS [("a", Val.int 1), ("b", Val.str "z")] "b" := by
  constructor
  · exact present_null_field_binds_none.1
      [("a", .int, .missing), ("b", .str, .value (Val.str "z"))]
      [(Val.str "a", Val.int 1), (Val.str "b", Val.none)]
      [("a", Val.int 1), ("b", Val.none)] "b" .str (.value (Val.str "z"))
      (by simp) (by simp) (by simp [lookupD])
      (by simp [from_json, buildKwargs, lookupD, deserialize_none, deserialize, pyInt,
        construct, constructFields, fieldArg, lookupS, Except.bind, Bind.bind])
  · exact present_null_field_binds_none.2
      [("a", .int, .missing), ("b", .str, .value (Val.str "z"))]
      [(Val.str "a", Val.int 1), (Val.str "b", Val.none)]
      [(Val.str "a", Val.int 1)]
      [("a", Val.int 1), ("b", Val.none)] [("a", Val.int 1), ("b", Val.str "z")]
      "b" .str (Val.str "z") (by simp) (by simp) (by simp) (by simp [lookupD])
      (by simp [lookupD])
      (by simp [from_json, buildKwargs, lookupD, deserialize_none, deserialize, pyInt,
        construct, constructFields, fieldArg, lookupS, Except.bind, Bind.bind])
      (by simp [from_json, buildKwargs, lookupD, deserialize, pyInt,
        construct, constructFields, fieldArg, lookupS, Except.bind, Bind.bind])

theorem deserialize_bad_timestamp (s : String)
    (h : s = "" ∨ parseDT s.data = Option.none) :
    deserialize .datetime (.str s) = .ok .none := by
  by_cases he : s = ""
  · subst he
    simp [deserialize, deserialize_datetime, truthy]
  · rcases h with he2 | hp
    · exact absurd he2 he
    · have ht : truthy (.str s) = true := by simp [truthy, bne_iff_ne, he]
      simp [deserialize, deserialize_datetime, ht, hp]

theorem lookupD_mid_hit (p1 p2 : List (Val × Val)) (name : String) (v : Val)
    (h : lookupD p1 name = Option.none) :
    lookupD (p1 ++ (Val.str name, v) :: p2) name = some v := by
  induction p1 with
  | nil => simp [lookupD]
  | cons q r ih =>
      obtain ⟨k, w⟩ := q
      rw [lookupD.eq_def] at h
      dsimp only at h
      cases k <;> simp only [List.cons_append, lookupD] at *
      case str ks =>
        split at h
        · exact absurd h (by simp)
        · next hne => simp [hne, ih h]
      all_goals exact ih h

theorem lookupD_mid_skip (p1 p2 : List (Val × Val)) (name n : String) (v : Val)
    (h : ¬(name = n)) :
    lookupD (p1 ++ (Val.str name, v) :: p2) n = lookupD (p1 ++ p2) n := by
  induction p1 with
  | nil => simp [lookupD, h]
  | cons q r ih =>
      obtain ⟨k, w⟩ := q
      cases k <;> simp only [List.cons_append, lookupD] at *
      case str ks => split <;> simp [ih]
      all_goals exact ih

theorem buildKwargs_subst (s : String) (hbad : s = "" ∨ parseDT s.data = Option.none) :
    ∀ (desc : RecordDesc) (p1 p2 : List (Val × Val)) (name : String),
    (∀ ty df, (name, ty, df) ∈ desc → ty = .datetime) →
    lookupD p1 name = Option.none →
    buildKwargs desc (p1 ++ (Val.str name, Val.str s) :: p2) =
      buildKwargs desc (p1 ++ (Val.str name, Val.none) :: p2) := by
  intro desc
  induction desc with
  | nil => intro p1 p2 name _ _; simp [buildKwargs]
  | cons hd dr ih =>
      obtain ⟨n0, ty0, df0⟩ := hd
      intro p1 p2 name hty hno
      have ihr := ih p1 p2 name (fun ty df hmem => hty ty df (by simp [hmem])) hno
      rw [buildKwargs.eq_def]
      conv_rhs => rw [buildKwargs.eq_def]
      dsimp only
      by_cases he : n0 = name
      · subst he
        have hty0 : ty0 = .datetime := hty ty0 df0 (by simp)
        subst hty0
        rw [lookupD_mid_hit p1 p2 n0 (Val.str s) hno,
            lookupD_mid_hit p1 p2 n0 Val.none hno]
        dsimp only
        rw [deserialize_bad_timestamp s hbad, deserialize_none, ihr]
      · have hne : ¬(name = n0) := fun h2 => he h2.symm
        rw [lookupD_mid_skip p1 p2 name n0 (Val.str s) hne,
            lookupD_mid_skip p1 p2 name n0 Val.none hne]
        cases hl : lookupD (p1 ++ p2) n0 <;> dsimp only
        · exact ihr
        · rw [ihr]

/-- **C4 counterexample**: schema derivation of an unclassifiable annotation
(e.g. a field typed `set`) is *not* a hard failure: `get_field_type` falls
off the end of its branch chain and silently returns Python `None`. -/
theorem unsupported_schema_silently_none :
    get_field_type (.unsupported "set") = .ok SchemaV.none := by
  simp [get_field_type, types_map_get]

/-- **C4 (amended)**: serializing a non-`None` value of an unclassifiable
annotation raises `NotImplementedError`; but a `None` value passes the
`value is None` check and is silently omitted, and schema derivation
silently yields `None` for such a field instead of failing. -/
theorem unsupported_type_error_behavior (nm : String) :
    (∀ v : Val, v ≠ .none →
       serialize_value (.unsupported nm) v =
         .error "NotImplementedError: serializer not implemented") ∧
    serialize_value (.unsupported nm) .none = .ok .none ∧
    get_field_type (.unsupported nm) = .ok SchemaV.none := by
  refine ⟨?_, serialize_value_none _, by simp [get_field_type, types_map_get]⟩
  intro v hv
  cases v with
  | none => exact absurd rfl hv
  | _ => simp [serialize_value]

/-- Witness for `unsupported_type_error_behavior` at a `set`-typed field
holding the integer `0`. -/
theorem unsupported_type_error_behavior_witness :
    serialize_value (.unsupported "set") (.int 0) =
      .error "NotImplementedError: serializer not implemented" ∧
    get_field_type (.unsupported "set") = .ok SchemaV.none :=
  ⟨(unsupported_type_error_behavior "set").1 (.int 0) (by simp),
   (unsupported_type_error_behavior "set").2.2⟩

/-- **C5 counterexample**: a field declared with a `default_factory` has a
declared default, yet `get_schema_required` lists it as required, because
its `default` attribute is still `dataclasses.MISSING` (this matches the
repository's own test, which expects `required = ['my_list']` for
`my_list: List[PrimitiveDto] = field(default_factory=list)`). -/
theorem factory_default_still_required :
    get_schema_required
      [("my_list", Ty.listOf (Ty.record []), Dflt.factory (Val.list []))] = ["my_list"] := by
  rfl

/-- **C5 (amended)**: the schema `required` list contains, in declaration
order, exactly the fields without a plain `default` value — fields with
only a `default_factory` are also listed as required. -/
theorem schema_required_characterization : ∀ desc : RecordDesc,
    List.Sublist (get_schema_required desc) (desc.map (fun x => x.1)) ∧
    (∀ name ty df, (desc.map (fun x => x.1)).Nodup → (name, ty, df) ∈ desc →
      (name ∈ get_schema_required desc ↔ df = .missing ∨ ∃ w, df = .factory w)) := by
  intro desc
  constructor
  · simp only [get_schema_required]
    exact (List.filter_sublist desc).map (fun x => x.1)
  · induction desc with
    | nil => intro name ty df _ hmem; simp at hmem
    | cons hd dr ih =>
        obtain ⟨n0, ty0, df0⟩ := hd
        intro name ty df hnd hmem
        simp only [List.map_cons, List.nodup_cons] at hnd
        obtain ⟨hn0, hndr⟩ := hnd
        have hsub : ∀ n, n ∈ get_schema_required dr → n ∈ dr.map (fun x => x.1) := by
          intro n hn
          simp only [get_schema_required] at hn
          exact ((List.filter_sublist dr).map (fun x => x.1)).mem hn
        simp only [List.mem_cons] at hmem
        rcases hmem with he | hmem
        · injection he with he1 he2
          injection he2 with he2 he3
          subst he1; subst he2; subst he3
          cases df with
          | missing => simp [get_schema_required, List.filter]
          | factory w => simp [get_schema_required, List.filter]
          | value w =>
              simp only [get_schema_required, List.filter]
              constructor
              · intro hin
                exact absurd (hsub name hin) hn0
              · rintro (he | ⟨w2, he⟩) <;> exact absurd he (by simp)
        · have hnamedr : name ∈ dr.map (fun x => x.1) := by
            simpa using List.mem_map_of_mem (fun x => x.1) hmem
          have hne : ¬(name = n0) := fun he => hn0 (he ▸ hnamedr)
          have ihr := ih name ty df hndr hmem
          cases df0 with
          | missing => simpa [get_schema_required, List.filter, hne] using ihr
          | factory w => simpa [get_schema_required, List.filter, hne] using ihr
          | value w => simpa [get_schema_required, List.filter] using ihr

/-- Witness for `schema_required_characterization`: in a record with a
plain-default field `b` and a factory-default field `c`, `c` is required
and `b` is not. -/
theorem schema_required_characterization_witness :
    "c" ∈ get_schema_required
      [("a", Ty.int, Dflt.missing), ("b", Ty.int, Dflt.value (Val.int 1)),
       ("c", Ty.int, Dflt.factory (Val.list []))] ∧
    ¬("b" ∈ get_schema_required
      [("a", Ty.int, Dflt.missing), ("b", Ty.int, Dflt.value (Val.int 1)),
       ("c", Ty.int, Dflt.factory (Val.list []))]) := by
  have h := (schema_required_characterization
    [("a", Ty.int, Dflt.missing), ("b", Ty.int, Dflt.value (Val.int 1)),
     ("c", Ty.int, Dflt.factory (Val.list []))]).2
  constructor
  · exact (h "c" Ty.int (Dflt.factory (Val.list [])) (by simp) (by simp)).mpr
      (Or.inr ⟨Val.list [], rfl⟩)
  · intro hb
    rcases (h "b" Ty.int (Dflt.value (Val.int 1)) (by simp) (by simp)).mp hb with
      he | ⟨w, he⟩ <;> exact absurd he (by simp)

/-- **C6 (code bug)**: a field annotated directly with a nested `JsonDto`
record type should yield the inlined object schema
`{type: "object", properties: ...}`, but the source tests
`isinstance(field.type, JsonDto)` — a class object is never an *instance*
of `JsonDto` — so the branch is dead and `get_field_type` returns `None`
for every such field. -/
theorem record_field_schema_is_none : ∀ desc : RecordDesc,
    get_field_type (.record desc) = .ok SchemaV.none := by
  intro desc
  simp [get_field_type, types_map_get]

/-- **C7**: the schema for a list-of-record field inlines the nested
properties with no nested `required`, while the schema for a map-of-record
field (any key type) carries the nested `required` list inside
`additionalProperties`. -/
theorem nested_list_map_schema (nd : RecordDesc) (P : List (String × SchemaV)) (kt : Ty)
    (hp : get_schema_properties nd = .ok P) :
    get_field_type (.listOf (.record nd)) =
      .ok (.obj [("type", .str "array"),
                 ("items", .obj [("type", .str "object"), ("properties", .obj P)])]) ∧
    get_field_type (.mapOf kt (.record nd)) =
      .ok (.obj [("type", .str "object"),
                 ("additionalProperties",
                  .obj [("type", .str "object"), ("properties", .obj P),
                        ("required", .arr ((get_schema_required nd).map SchemaV.str))])]) := by
  constructor
  · simp [get_field_type, types_map_get, hp, Except.bind, Bind.bind]
  · simp [get_field_type, types_map_get, hp, Except.bind, Bind.bind]

/-- Witness for `nested_list_map_schema` at the one-field record
`{my_int: int}` with a string key type for the map. -/
theorem nested_list_map_schema_witness :
    get_field_type (.listOf (.record [("my_int", .int, .missing)])) =
      .ok (.obj [("type", .str "array"),
                 ("items", .obj [("type", .str "object"),
                   ("properties", .obj [("my_int", .obj [("type", .str "integer")])])])]) ∧
    get_field_type (.mapOf .str (.record [("my_int", .int, .missing)])) =
      .ok (.obj [("type", .str "object"),
                 ("additionalProperties",
                  .obj [("type", .str "object"),
                        ("properties", .obj [("my_int", .obj [("type", .str "integer")])]),
                        ("required", .arr [.str "my_int"])])]) := by
  have hp : get_schema_properties [("my_int", .int, .missing)] =
      .ok [("my_int", .obj [("type", .str "integer")])] := by
    simp [get_schema_properties, get_field_type, types_map_get, Except.bind, Bind.bind]
  have h := nested_list_map_schema [("my_int", .int, .missing)]
    [("my_int", .obj [("type", .str "integer")])] .str hp
  exact ⟨h.1, by rw [h.2]; rfl⟩

/-- **C8**: an enum member serializes to its symbolic name (a string, not
its underlying value); deserializing that name yields the identical member;
deserializing a name outside the enumeration's closed set raises `KeyError`
with no fallback. -/
theorem enum_member_roundtrip (en : String) (members : List String) (m : String) :
    (m ∈ members →
       serialize_value (.enum en members) (.enumMember en m) = .ok (.str m) ∧
       deserialize (.enum en members) (.str m) = .ok (.enumMember en m)) ∧
    (m ∉ members → deserialize (.enum en members) (.str m) = .error "KeyError") := by
  constructor
  · intro h
    exact ⟨by simp [serialize_value], by simp [deserialize, deserialize_enum, h]⟩
  · intro h
    simp [deserialize, deserialize_enum, h]

/-- Witness for `enum_member_roundtrip` on `Color = {RED, GREEN}` with the
known name `RED` and the unknown name `BLUE`. -/
theorem enum_member_roundtrip_witness :
    (serialize_value (.enum "Color" ["RED", "GREEN"]) (.enumMember "Color" "RED") =
       .ok (.str "RED") ∧
     deserialize (.enum "Color" ["RED", "GREEN"]) (.str "RED") =
       .ok (.enumMember "Color" "RED")) ∧
    deserialize (.enum "Color" ["RED", "GREEN"]) (.str "BLUE") = .error "KeyError" :=
  ⟨(enum_member_roundtrip "Color" ["RED", "GREEN"] "RED").1 (by simp),
   (enum_member_roundtrip "Color" ["RED", "GREEN"] "BLUE").2 (by simp)⟩

theorem formatDT_ne_nil (d : PyDatetime) : ¬(formatDT d = []) := by
  obtain ⟨y, mo, da, h, mi, se, tz⟩ := d
  simp only [formatDT, fmtYear]
  split_ifs <;> simp [pad4]

theorem truthy_formatDT (d : PyDatetime) :
    truthy (.str (String.mk (formatDT d))) = true := by
  simp only [truthy, bne_iff_ne, ne_eq, decide_eq_true_eq]
  intro h
  exact formatDT_ne_nil d (congrArg String.data h)

theorem deserialize_datetime_formatDT_naive (d : PyDatetime)
    (htz : d.tz = Option.none) :
    deserialize_datetime (.str (String.mk (formatDT d))) = .ok Val.none := by
  simp only [deserialize_datetime]
  simp [truthy_formatDT d, parseDT_formatDT_naive d htz]

theorem deserialize_datetime_formatDT_aware (d : PyDatetime) (hv : d.ValidFields)
    (hy : 1000 ≤ d.year) (hd : d.day ≤ daysInMonth d.year d.month) (off : Int)
    (htz : d.tz = some off) (hoff : off.natAbs < 86400000000) :
    deserialize_datetime (.str (String.mk (formatDT d))) = .ok (.dt d) := by
  simp only [deserialize_datetime]
  simp [truthy_formatDT d, parseDT_formatDT d hv hy hd off htz hoff]

